import Mathlib

/-!
Verification of the `TestbenchEnv` hardware-testbench adapter
(`openmodelica_microgrid_gym/env/physical_testbench.py`).

The adapter has three responsibilities, each embedded below:
* the telemetry decoder `__decode_result` (comma-split lines, 11-token rows kept);
* the reward function `rew_fun` (square-root tracking term plus logarithmic barrier);
* the episode stepper `step` / `reset` state machine.

Real-valued transcendental arithmetic (`sqrt`, `log`, `cos`) is embedded over `ℝ`;
the telemetry values and environment state are embedded over `ℚ` and coerced where
the reward is computed, mirroring the numeric payload of the Python code.
-/

namespace Testbench

/-- Splitting a character list on the comma separator, mirroring Python's
`line.split(",")`: the result always holds at least one (possibly empty) token,
and an empty line yields the single empty token. -/
def splitComma : List Char → List (List Char)
  | [] => [[]]
  | c :: cs =>
    if c = ',' then [] :: splitComma cs
    else
      match splitComma cs with
      | t :: ts => (c :: t) :: ts
      | [] => [[c]]

/-- Output of `__decode_result`: the decoded numeric table plus the token lists
echoed to standard output for lines of unexpected shape. -/
structure DecodeOut where
  rows : List (List ℚ)
  printed : List (List (List Char))
  deriving DecidableEq, Repr

/-- `TestbenchEnv.__decode_result`, one loop iteration per input line:
split the line on commas; on exactly 11 tokens drop the last token and convert the
remaining 10 via the numeric reading `f` (Python `float`, abstracted as a total
conversion since malformed tokens raise an uncaught error outside every claim);
on any other token count except 1 print the token list; on exactly 1 token do
nothing. -/
def decodeResult (f : List Char → ℚ) : List (List Char) → DecodeOut
  | [] => ⟨[], []⟩
  | line :: rest =>
    let temp := splitComma line
    let r := decodeResult f rest
    if temp.length = 11 then ⟨(temp.dropLast.map f) :: r.rows, r.printed⟩
    else if temp.length ≠ 1 then ⟨r.rows, temp :: r.printed⟩
    else r

/-- C1. Decoder characterisation: the output table consists of, in input-line order,
one 10-entry row per line splitting into exactly 11 tokens (last token dropped,
the rest converted by `f`); lines of any other multi-token shape are echoed as
diagnostics and contribute no row; single-token lines contribute nothing anywhere;
and the table is empty when no 11-token line occurs. -/
theorem decode_result_characterisation (f : List Char → ℚ) (lines : List (List Char)) :
    (decodeResult f lines).rows
      = (lines.filter fun l => (splitComma l).length == 11).map
          (fun l => ((splitComma l).dropLast).map f)
    ∧ (decodeResult f lines).printed
      = ((lines.map splitComma).filter fun t => !(t.length == 11) && !(t.length == 1))
    ∧ ((∀ l ∈ lines, (splitComma l).length ≠ 11) → (decodeResult f lines).rows = []) := by
  induction lines with
  | nil => refine ⟨rfl, rfl, fun _ => rfl⟩
  | cons line rest ih =>
    obtain ⟨h1, h2, _⟩ := ih
    by_cases h11 : (splitComma line).length = 11
    · refine ⟨?_, ?_, ?_⟩
      · simp [decodeResult, h11, List.filter_cons, h1]
      · simp [decodeResult, h11, List.filter_cons, h2]
      · intro h
        exact absurd h11 (h line (List.mem_cons_self line rest))
    · by_cases h1tok : (splitComma line).length = 1
      · refine ⟨?_, ?_, ?_⟩
        · simp [decodeResult, h11, h1tok, List.filter_cons, h1]
        · simp [decodeResult, h11, h1tok, List.filter_cons, h2]
        · intro h
          have hfil : (rest.filter fun l => (splitComma l).length == 11) = [] := by
            rw [List.filter_eq_nil_iff]
            intro a ha
            simpa using h a (List.mem_cons_of_mem line ha)
          have hrows : (decodeResult f rest).rows = [] := by
            rw [h1, hfil]; rfl
          simp [decodeResult, h11, h1tok, hrows]
      · refine ⟨?_, ?_, ?_⟩
        · simp [decodeResult, h11, h1tok, List.filter_cons, h1]
        · simp [decodeResult, h11, h1tok, List.filter_cons, h2]
        · intro h
          have hfil2 : (rest.filter fun l => (splitComma l).length == 11) = [] := by
            rw [List.filter_eq_nil_iff]
            intro a ha
            simpa using h a (List.mem_cons_of_mem line ha)
          have hrows : (decodeResult f rest).rows = [] := by
            rw [h1, hfil2]; rfl
          simp [decodeResult, h11, h1tok, hrows]

/-- C1 witness: concrete evaluation on a three-line input holding one 11-token
line, one 3-token line and one 1-token line, plus the empty-table case on an
input with no 11-token line. -/
theorem decode_result_characterisation_witness :
    (decodeResult (fun _ => (7 : ℚ))
        [['1', ',', '2', ',', '3', ',', '4', ',', '5', ',', '6', ',', '7', ',', '8', ',', '9', ',', '0', ','],
         ['a', ',', 'b', ',', 'c'],
         ['x']]).rows
      = ([['1', ',', '2', ',', '3', ',', '4', ',', '5', ',', '6', ',', '7', ',', '8', ',', '9', ',', '0', ','],
          ['a', ',', 'b', ',', 'c'],
          ['x']].filter fun l => (splitComma l).length == 11).map
          (fun l => ((splitComma l).dropLast).map (fun _ => (7 : ℚ)))
    ∧ (decodeResult (fun _ => (7 : ℚ)) [['a', ',', 'b'], ['x']]).rows = [] := by
  refine ⟨(decode_result_characterisation (fun _ => (7 : ℚ)) _).1, ?_⟩
  exact (decode_result_characterisation (fun _ => (7 : ℚ)) [['a', ',', 'b'], ['x']]).2.2
    (by decide)

/-- Modelled from the spec: `dq0_to_abc` lives in `openmodelica_microgrid_gym.util`,
which is not among the provided sources. Per §4.3 and the glossary it is the
rotating-frame (inverse Park / dq0) transform taking a dq0 vector and a phase angle
to phase-aligned three-phase abc coordinates, in the amplitude-invariant form with
the three phases displaced by 2π/3. -/
noncomputable def dq0_to_abc (dq0 : ℝ × ℝ × ℝ) (theta : ℝ) : ℝ × ℝ × ℝ :=
  (dq0.1 * Real.cos theta - dq0.2.1 * Real.sin theta + dq0.2.2,
   dq0.1 * Real.cos (theta - 2 * Real.pi / 3) - dq0.2.1 * Real.sin (theta - 2 * Real.pi / 3)
     + dq0.2.2,
   dq0.1 * Real.cos (theta + 2 * Real.pi / 3) - dq0.2.1 * Real.sin (theta + 2 * Real.pi / 3)
     + dq0.2.2)

/-- Argument of each per-phase logarithm in `rew_fun`:
`1 - np.maximum(np.abs(I) - i_nominal, 0) / (i_limit - i_nominal)`.
IEEE `np.log` returns a non-finite value exactly when this argument is `≤ 0`. -/
noncomputable def barrierArg (i_limit i_nominal I : ℝ) : ℝ :=
  1 - max (|I| - i_nominal) 0 / (i_limit - i_nominal)

/-- `TestbenchEnv.rew_fun`, verbatim: `error` is the sum over phases of
`(|SP − meas| / i_limit) ** 0.5` plus minus the sum over phases of
`mu * log(barrierArg)` times `max_episode_steps`, and the reward is `-error`.
(`x ** 0.5` is the real square root on the nonnegative arguments arising here.) -/
noncomputable def rewFun (i_limit i_nominal : ℝ) (maxSteps : ℕ)
    (Iabc_meas Idq0_SP : ℝ × ℝ × ℝ) (phase : ℝ) : ℝ :=
  let mu : ℝ := 2;
  let Iabc_SP := dq0_to_abc Idq0_SP phase;
  let error :=
    (Real.sqrt (|Iabc_SP.1 - Iabc_meas.1| / i_limit)
      + Real.sqrt (|Iabc_SP.2.1 - Iabc_meas.2.1| / i_limit)
      + Real.sqrt (|Iabc_SP.2.2 - Iabc_meas.2.2| / i_limit))
    + -(mu * Real.log (barrierArg i_limit i_nominal Iabc_meas.1)
        + mu * Real.log (barrierArg i_limit i_nominal Iabc_meas.2.1)
        + mu * Real.log (barrierArg i_limit i_nominal Iabc_meas.2.2))
      * (maxSteps : ℝ);
  -error

/-- The square-root tracking part of `rew_fun`'s error, in isolation. -/
noncomputable def trackingTerm (i_limit : ℝ) (sp m : ℝ × ℝ × ℝ) : ℝ :=
  Real.sqrt (|sp.1 - m.1| / i_limit) + Real.sqrt (|sp.2.1 - m.2.1| / i_limit)
    + Real.sqrt (|sp.2.2 - m.2.2| / i_limit)

/-- The per-phase logarithmic barrier part of `rew_fun` (with `mu = 2`), in
isolation and without the step-count factor. -/
noncomputable def barrierSum (i_limit i_nominal : ℝ) (m : ℝ × ℝ × ℝ) : ℝ :=
  2 * Real.log (barrierArg i_limit i_nominal m.1)
    + 2 * Real.log (barrierArg i_limit i_nominal m.2.1)
    + 2 * Real.log (barrierArg i_limit i_nominal m.2.2)

/-- The state of a `TestbenchEnv` instance: every attribute assigned in
`__init__` (the paramiko session handle is external-library state, carried
implicitly by `reset`'s remote-interaction parameter). -/
structure TestbenchEnv where
  host : String
  username : String
  password : String
  DT : ℚ
  executable_script_name : String
  max_episode_steps : ℕ
  kP : ℚ
  kI : ℚ
  i_ref : ℚ
  f_nom : ℚ
  data : List (List ℚ)
  current_step : ℕ
  done : Bool
  i_limit : ℚ
  i_nominal : ℚ
  deriving DecidableEq

/-- The 4-tuple returned by `TestbenchEnv.step`:
`(temp_data, reward, self.done, info)` with `info = []` always. -/
structure StepOut where
  obs : List ℚ
  reward : ℝ
  done : Bool
  info : List ℚ

/-- `TestbenchEnv.step`: read the telemetry row at the cursor (an out-of-range
index raises, modelled by `none`), advance the cursor, extract columns 3–5
(measured phase currents) and 9 (phase angle), build the setpoint `(i_ref, 0, 0)`,
compute the reward, and set the done flag when the advanced cursor equals
`max_episode_steps`. -/
noncomputable def step (e : TestbenchEnv) : Option (StepOut × TestbenchEnv) := do
  let temp ← e.data[e.current_step]?
  let cs := e.current_step + 1
  let iA : ℚ ← temp[3]?
  let iB : ℚ ← temp[4]?
  let iC : ℚ ← temp[5]?
  let phase : ℚ ← temp[9]?
  let reward := rewFun (e.i_limit : ℝ) (e.i_nominal : ℝ) e.max_episode_steps
    ((iA : ℝ), (iB : ℝ), (iC : ℝ)) ((e.i_ref : ℝ), 0, 0) (phase : ℝ)
  let done2 := if cs = e.max_episode_steps then true else e.done
  some (⟨temp, reward, done2, []⟩, { e with current_step := cs, done := done2 })

/-- `TestbenchEnv.reset(kP, kI)`: first assign the new gains, then connect,
run the remote executable and decode its standard output, then zero the cursor
and clear the done flag. The remote interaction is the `remote` parameter:
`none` models the connection, remote execution or decoding raising (the state
at the raise is returned with flag `false`), `some lines` models a successful
run producing the given output lines. -/
def reset (e : TestbenchEnv) (kP kI : ℚ) (f : List Char → ℚ)
    (remote : Option (List (List Char))) : TestbenchEnv × Bool :=
  let e1 := { e with kP := kP, kI := kI }
  match remote with
  | none => (e1, false)
  | some out =>
    ({ e1 with data := (decodeResult f out).rows, current_step := 0, done := false }, true)

/-- State reached after `k` successful `step()` calls (`none` once any of them
raises). -/
noncomputable def runSteps (e : TestbenchEnv) : ℕ → Option TestbenchEnv
  | 0 => some e
  | k + 1 => (runSteps e k).bind fun e2 => (step e2).map Prod.snd

/-- Return value of the `step()` call made after `k` earlier successful calls
(the `(k+1)`-st call overall). -/
noncomputable def stepOutputAfter (e : TestbenchEnv) (k : ℕ) : Option StepOut :=
  (runSteps e k).bind fun e2 => (step e2).map Prod.fst

/-- `__decode_result` threaded through the environment state, as invoked from
`reset`: being a `@staticmethod`, it reads no instance attribute and writes
none, so the embedding returns the state unchanged alongside the decoded
output of the given telemetry text. -/
def decodeResultSt (s : TestbenchEnv) (f : List Char → ℚ) (lines : List (List Char)) :
    TestbenchEnv × DecodeOut :=
  (s, decodeResult f lines)

lemma barrierArg_eq_one {i_limit i_nominal I : ℝ} (h : |I| ≤ i_nominal) :
    barrierArg i_limit i_nominal I = 1 := by
  unfold barrierArg
  rw [max_eq_right (sub_nonpos.mpr h)]
  simp

lemma rewFun_eq_decomp (i_limit i_nominal : ℝ) (N : ℕ) (m sp : ℝ × ℝ × ℝ) (θ : ℝ) :
    rewFun i_limit i_nominal N m sp θ
      = -(trackingTerm i_limit (dq0_to_abc sp θ) m)
        + (N : ℝ) * barrierSum i_limit i_nominal m := by
  simp only [rewFun, trackingTerm, barrierSum]
  ring

lemma rewFun_of_le_nominal {i_limit i_nominal : ℝ} {N : ℕ} {m sp : ℝ × ℝ × ℝ} {θ : ℝ}
    (h1 : |m.1| ≤ i_nominal) (h2 : |m.2.1| ≤ i_nominal) (h3 : |m.2.2| ≤ i_nominal) :
    rewFun i_limit i_nominal N m sp θ = -(trackingTerm i_limit (dq0_to_abc sp θ) m) := by
  rw [rewFun_eq_decomp]
  unfold barrierSum
  rw [barrierArg_eq_one h1, barrierArg_eq_one h2, barrierArg_eq_one h3]
  simp

/-- C6. In `rew_fun` the barrier sum is multiplied by `max_episode_steps` while the
square-root tracking sum is not: the reward decomposes as minus the (step-count
independent) tracking term plus the step count times the barrier sum, so changing
only the step count shifts the reward by the difference times the barrier sum. -/
theorem barrier_step_count_scaling (i_limit i_nominal : ℝ) (N M : ℕ)
    (m sp : ℝ × ℝ × ℝ) (θ : ℝ) :
    rewFun i_limit i_nominal N m sp θ
        = -(trackingTerm i_limit (dq0_to_abc sp θ) m)
          + (N : ℝ) * barrierSum i_limit i_nominal m
    ∧ rewFun i_limit i_nominal N m sp θ - rewFun i_limit i_nominal M m sp θ
        = ((N : ℝ) - (M : ℝ)) * barrierSum i_limit i_nominal m := by
  refine ⟨rewFun_eq_decomp i_limit i_nominal N m sp θ, ?_⟩
  rw [rewFun_eq_decomp, rewFun_eq_decomp]
  ring

lemma barrierArg_in_Ioo {i_limit i_nominal x : ℝ} (hnom : 0 < i_nominal)
    (hlt : i_nominal < i_limit) (hx : x ∈ Set.Ioo i_nominal i_limit) :
    barrierArg i_limit i_nominal x = (i_limit - x) / (i_limit - i_nominal) := by
  have hpos : 0 < x := lt_trans hnom hx.1
  have hne : i_limit - i_nominal ≠ 0 := ne_of_gt (by linarith)
  unfold barrierArg
  rw [abs_of_pos hpos, max_eq_left (by linarith [hx.1])]
  field_simp

lemma barrier_tendsto_aux (i_limit i_nominal : ℝ) (N : ℕ)
    (hlt : i_nominal < i_limit) (hN : 1 ≤ N)
    (T : ℝ → ℝ) (hT : Continuous T) (C : ℝ) :
    Filter.Tendsto
      (fun x => -(T x) + (N : ℝ) * (2 * Real.log ((i_limit - x) / (i_limit - i_nominal)) + C))
      (nhdsWithin i_limit (Set.Ioo i_nominal i_limit)) Filter.atBot := by
  have hd : (0:ℝ) < i_limit - i_nominal := by linarith
  have hTt : Filter.Tendsto (fun x => -(T x))
      (nhdsWithin i_limit (Set.Ioo i_nominal i_limit)) (nhds (-(T i_limit))) :=
    ((hT.neg).tendsto i_limit).mono_left nhdsWithin_le_nhds
  have hlog : Filter.Tendsto (fun x => Real.log ((i_limit - x) / (i_limit - i_nominal)))
      (nhdsWithin i_limit (Set.Ioo i_nominal i_limit)) Filter.atBot := by
    apply Filter.Tendsto.comp Real.tendsto_log_nhdsWithin_zero_right
    rw [tendsto_nhdsWithin_iff]
    constructor
    · have hcont : Filter.Tendsto (fun x : ℝ => (i_limit - x) / (i_limit - i_nominal))
          (nhds i_limit) (nhds ((i_limit - i_limit) / (i_limit - i_nominal))) := by
        apply Continuous.tendsto
        fun_prop
      have := hcont.mono_left (nhdsWithin_le_nhds
        (s := Set.Ioo i_nominal i_limit) (a := i_limit))
      simpa using this
    · filter_upwards [self_mem_nhdsWithin] with x hx
      exact Set.mem_Ioi.mpr (div_pos (by linarith [hx.2]) hd)
  have hNpos : (0:ℝ) < (N : ℝ) := by
    have : 0 < N := hN
    exact_mod_cast this
  exact Filter.Tendsto.add_atBot hTt
    (Filter.Tendsto.const_mul_atBot hNpos
      (Filter.tendsto_atBot_add_const_right _ C (Filter.Tendsto.const_mul_atBot two_pos hlog)))

/-- C3. Barrier behaviour of `rew_fun`: (1) when all three measured phase-current
magnitudes are at or below `i_nominal` the barrier contributes exactly zero, so the
reward is the negated tracking term alone; (2) as any one of the three phase
currents approaches `i_limit` from within `(i_nominal, i_limit)` — the other two
held at arbitrary fixed values — the reward tends to negative infinity; (3) the
argument of the per-phase barrier logarithm is nonpositive — where IEEE `log` is
non-finite — exactly when that phase-current magnitude reaches or exceeds
`i_limit`. -/
theorem reward_barrier (i_limit i_nominal : ℝ) (N : ℕ) (dq0 : ℝ × ℝ × ℝ) (θ : ℝ) :
    (∀ m : ℝ × ℝ × ℝ, |m.1| ≤ i_nominal → |m.2.1| ≤ i_nominal → |m.2.2| ≤ i_nominal →
      rewFun i_limit i_nominal N m dq0 θ = -(trackingTerm i_limit (dq0_to_abc dq0 θ) m))
    ∧ (0 < i_nominal → i_nominal < i_limit → 1 ≤ N →
      (∀ mb mc : ℝ, Filter.Tendsto
        (fun ia => rewFun i_limit i_nominal N (ia, mb, mc) dq0 θ)
        (nhdsWithin i_limit (Set.Ioo i_nominal i_limit)) Filter.atBot)
      ∧ (∀ ma mc : ℝ, Filter.Tendsto
        (fun ib => rewFun i_limit i_nominal N (ma, ib, mc) dq0 θ)
        (nhdsWithin i_limit (Set.Ioo i_nominal i_limit)) Filter.atBot)
      ∧ (∀ ma mb : ℝ, Filter.Tendsto
        (fun ic => rewFun i_limit i_nominal N (ma, mb, ic) dq0 θ)
        (nhdsWithin i_limit (Set.Ioo i_nominal i_limit)) Filter.atBot))
    ∧ (i_nominal < i_limit →
      ∀ I : ℝ, (barrierArg i_limit i_nominal I ≤ 0 ↔ i_limit ≤ |I|)) := by
  refine ⟨fun m h1 h2 h3 => rewFun_of_le_nominal h1 h2 h3, ?_, ?_⟩
  · intro hnom hlt hN
    refine ⟨?_, ?_, ?_⟩
    · intro mb mc
      apply Filter.Tendsto.congr' _ (barrier_tendsto_aux i_limit i_nominal N hlt hN
        (fun x => trackingTerm i_limit (dq0_to_abc dq0 θ) (x, mb, mc))
        (by unfold trackingTerm; fun_prop)
        (2 * Real.log (barrierArg i_limit i_nominal mb)
          + 2 * Real.log (barrierArg i_limit i_nominal mc)))
      filter_upwards [self_mem_nhdsWithin] with x hx
      rw [rewFun_eq_decomp]
      unfold barrierSum
      rw [show ((x, mb, mc) : ℝ × ℝ × ℝ).1 = x from rfl]
      rw [show ((x, mb, mc) : ℝ × ℝ × ℝ).2.1 = mb from rfl]
      rw [show ((x, mb, mc) : ℝ × ℝ × ℝ).2.2 = mc from rfl]
      rw [barrierArg_in_Ioo hnom hlt hx]
      ring
    · intro ma mc
      apply Filter.Tendsto.congr' _ (barrier_tendsto_aux i_limit i_nominal N hlt hN
        (fun x => trackingTerm i_limit (dq0_to_abc dq0 θ) (ma, x, mc))
        (by unfold trackingTerm; fun_prop)
        (2 * Real.log (barrierArg i_limit i_nominal ma)
          + 2 * Real.log (barrierArg i_limit i_nominal mc)))
      filter_upwards [self_mem_nhdsWithin] with x hx
      rw [rewFun_eq_decomp]
      unfold barrierSum
      rw [show ((ma, x, mc) : ℝ × ℝ × ℝ).1 = ma from rfl]
      rw [show ((ma, x, mc) : ℝ × ℝ × ℝ).2.1 = x from rfl]
      rw [show ((ma, x, mc) : ℝ × ℝ × ℝ).2.2 = mc from rfl]
      rw [barrierArg_in_Ioo hnom hlt hx]
      ring
    · intro ma mb
      apply Filter.Tendsto.congr' _ (barrier_tendsto_aux i_limit i_nominal N hlt hN
        (fun x => trackingTerm i_limit (dq0_to_abc dq0 θ) (ma, mb, x))
        (by unfold trackingTerm; fun_prop)
        (2 * Real.log (barrierArg i_limit i_nominal ma)
          + 2 * Real.log (barrierArg i_limit i_nominal mb)))
      filter_upwards [self_mem_nhdsWithin] with x hx
      rw [rewFun_eq_decomp]
      unfold barrierSum
      rw [show ((ma, mb, x) : ℝ × ℝ × ℝ).1 = ma from rfl]
      rw [show ((ma, mb, x) : ℝ × ℝ × ℝ).2.1 = mb from rfl]
      rw [show ((ma, mb, x) : ℝ × ℝ × ℝ).2.2 = x from rfl]
      rw [barrierArg_in_Ioo hnom hlt hx]
      ring
  · intro hlt I
    have hd : (0:ℝ) < i_limit - i_nominal := by linarith
    unfold barrierArg
    rw [sub_nonpos, one_le_div hd]
    constructor
    · intro h
      rcases le_max_iff.mp h with h1 | h2
      · linarith
      · linarith
    · intro h
      exact le_max_iff.mpr (Or.inl (by linarith))

/-- C3 witness: concrete instantiation at the default configuration
(`i_limit = 30`, `i_nominal = 20`, three steps, setpoint `(10,0,0)`, phase `0`),
with the divergence exercised on each of the three phases and other-phase values
deliberately outside `[-i_nominal, i_nominal]` in the first case. -/
theorem reward_barrier_witness :
    rewFun 30 20 3 (10, 10, 10) (10, 0, 0) 0
      = -(trackingTerm 30 (dq0_to_abc (10, 0, 0) 0) (10, 10, 10))
    ∧ Filter.Tendsto (fun ia => rewFun 30 20 3 (ia, 25, -40) (10, 0, 0) 0)
        (nhdsWithin 30 (Set.Ioo 20 30)) Filter.atBot
    ∧ Filter.Tendsto (fun ib => rewFun 30 20 3 (5, ib, 25) (10, 0, 0) 0)
        (nhdsWithin 30 (Set.Ioo 20 30)) Filter.atBot
    ∧ Filter.Tendsto (fun ic => rewFun 30 20 3 (5, 5, ic) (10, 0, 0) 0)
        (nhdsWithin 30 (Set.Ioo 20 30)) Filter.atBot
    ∧ (barrierArg 30 20 35 ≤ 0 ↔ (30:ℝ) ≤ |(35:ℝ)|) := by
  obtain ⟨p1, p2, p3⟩ := reward_barrier 30 20 3 (10, 0, 0) 0
  obtain ⟨pa, pb, pc⟩ := p2 (by norm_num) (by norm_num) (by norm_num)
  exact ⟨p1 (10, 10, 10) (by norm_num) (by norm_num) (by norm_num),
    pa 25 (-40), pb 5 25, pc 5 5, p3 (by norm_num) 35⟩

/-- C4. Strict tracking monotonicity of `rew_fun`: with the phase angle and dq0
setpoint fixed and all measured phase-current magnitudes at or below `i_nominal`
(so the barrier vanishes), enlarging the per-phase absolute tracking errors —
weakly in every phase and strictly in at least one — strictly decreases the
reward. -/
theorem reward_strict_monotone (i_limit i_nominal : ℝ) (N : ℕ) (dq0 : ℝ × ℝ × ℝ)
    (θ : ℝ) (m m' : ℝ × ℝ × ℝ)
    (hlim : 0 < i_limit)
    (hm1 : |m.1| ≤ i_nominal) (hm2 : |m.2.1| ≤ i_nominal) (hm3 : |m.2.2| ≤ i_nominal)
    (hn1 : |m'.1| ≤ i_nominal) (hn2 : |m'.2.1| ≤ i_nominal) (hn3 : |m'.2.2| ≤ i_nominal)
    (hle1 : |(dq0_to_abc dq0 θ).1 - m.1| ≤ |(dq0_to_abc dq0 θ).1 - m'.1|)
    (hle2 : |(dq0_to_abc dq0 θ).2.1 - m.2.1| ≤ |(dq0_to_abc dq0 θ).2.1 - m'.2.1|)
    (hle3 : |(dq0_to_abc dq0 θ).2.2 - m.2.2| ≤ |(dq0_to_abc dq0 θ).2.2 - m'.2.2|)
    (hstrict : |(dq0_to_abc dq0 θ).1 - m.1| < |(dq0_to_abc dq0 θ).1 - m'.1|
      ∨ |(dq0_to_abc dq0 θ).2.1 - m.2.1| < |(dq0_to_abc dq0 θ).2.1 - m'.2.1|
      ∨ |(dq0_to_abc dq0 θ).2.2 - m.2.2| < |(dq0_to_abc dq0 θ).2.2 - m'.2.2|) :
    rewFun i_limit i_nominal N m' dq0 θ < rewFun i_limit i_nominal N m dq0 θ := by
  rw [rewFun_of_le_nominal hm1 hm2 hm3, rewFun_of_le_nominal hn1 hn2 hn3]
  rw [neg_lt_neg_iff]
  unfold trackingTerm
  have hwk : ∀ a b : ℝ, a ≤ b → Real.sqrt (a / i_limit) ≤ Real.sqrt (b / i_limit) := by
    intro a b hab
    apply Real.sqrt_le_sqrt
    gcongr
  have hst : ∀ a b : ℝ, 0 ≤ a → a < b →
      Real.sqrt (a / i_limit) < Real.sqrt (b / i_limit) := by
    intro a b ha hab
    apply Real.sqrt_lt_sqrt (div_nonneg ha hlim.le)
    gcongr
  have w1 := hwk _ _ hle1
  have w2 := hwk _ _ hle2
  have w3 := hwk _ _ hle3
  rcases hstrict with hs | hs | hs
  · have s1 := hst _ _ (abs_nonneg _) hs
    linarith
  · have s2 := hst _ _ (abs_nonneg _) hs
    linarith
  · have s3 := hst _ _ (abs_nonneg _) hs
    linarith

lemma abs_park_component_le (d q z x y : ℝ) :
    |d * Real.cos x - q * Real.sin y + z| ≤ |d| + |q| + |z| := by
  have hc : |d * Real.cos x| ≤ |d| := by
    rw [abs_mul]
    exact mul_le_of_le_one_right (abs_nonneg d) (Real.abs_cos_le_one x)
  have hs : |q * Real.sin y| ≤ |q| := by
    rw [abs_mul]
    exact mul_le_of_le_one_right (abs_nonneg q) (Real.abs_sin_le_one y)
  have h1 : |d * Real.cos x - q * Real.sin y| ≤ |d * Real.cos x| + |q * Real.sin y| := by
    rw [sub_eq_add_neg]
    exact (abs_add _ _).trans (le_of_eq (by rw [abs_neg]))
  have h2 : |d * Real.cos x - q * Real.sin y + z|
      ≤ |d * Real.cos x - q * Real.sin y| + |z| := abs_add _ _
  linarith

lemma abs_dq0_to_abc_le (dq0 : ℝ × ℝ × ℝ) (θ : ℝ) :
    |(dq0_to_abc dq0 θ).1| ≤ |dq0.1| + |dq0.2.1| + |dq0.2.2|
    ∧ |(dq0_to_abc dq0 θ).2.1| ≤ |dq0.1| + |dq0.2.1| + |dq0.2.2|
    ∧ |(dq0_to_abc dq0 θ).2.2| ≤ |dq0.1| + |dq0.2.1| + |dq0.2.2| :=
  ⟨abs_park_component_le _ _ _ _ _, abs_park_component_le _ _ _ _ _,
    abs_park_component_le _ _ _ _ _⟩

/-- C4 witness: at the default configuration, measuring exactly the abc setpoint
beats measuring it displaced by 5 A on phase a. -/
theorem reward_strict_monotone_witness :
    rewFun 30 20 3 ((dq0_to_abc (10, 0, 0) 0).1 + 5, (dq0_to_abc (10, 0, 0) 0).2.1,
        (dq0_to_abc (10, 0, 0) 0).2.2) (10, 0, 0) 0
      < rewFun 30 20 3 (dq0_to_abc (10, 0, 0) 0) (10, 0, 0) 0 := by
  obtain ⟨b1, b2, b3⟩ := abs_dq0_to_abc_le (10, 0, 0) 0
  have hten : |((10:ℝ), (0:ℝ), (0:ℝ)).1| + |((10:ℝ), (0:ℝ), (0:ℝ)).2.1|
      + |((10:ℝ), (0:ℝ), (0:ℝ)).2.2| = 10 := by norm_num
  rw [hten] at b1 b2 b3
  set sp := dq0_to_abc (10, 0, 0) 0 with hsp
  have hn1 : |sp.1 + 5| ≤ (20:ℝ) := by
    have h5 := abs_add sp.1 (5:ℝ)
    have habs5 : |(5:ℝ)| = 5 := by norm_num
    rw [habs5] at h5
    linarith
  have hle1 : |sp.1 - sp.1| ≤ |sp.1 - (sp.1 + 5)| := by
    rw [sub_self, abs_zero]
    positivity
  have hs1 : |sp.1 - sp.1| < |sp.1 - (sp.1 + 5)| := by
    rw [sub_self, abs_zero, show sp.1 - (sp.1 + 5) = (-5:ℝ) from by ring]
    norm_num
  exact reward_strict_monotone 30 20 3 (10, 0, 0) 0 sp (sp.1 + 5, sp.2.1, sp.2.2)
    (by norm_num)
    (by linarith) (by linarith) (by linarith)
    hn1 (b2.trans (by norm_num)) (b3.trans (by norm_num))
    hle1 le_rfl le_rfl (Or.inl hs1)

/-- The state update a successful `step()` performs: advance the cursor, set the
done flag when the advanced cursor equals `max_episode_steps`, keep it otherwise. -/
def nextEnv (e : TestbenchEnv) : TestbenchEnv :=
  { e with
    current_step := e.current_step + 1
    done := if e.current_step + 1 = e.max_episode_steps then true else e.done }

lemma step_some (e : TestbenchEnv) (row : List ℚ)
    (hrow : e.data[e.current_step]? = some row) (hlen : 10 ≤ row.length) :
    ∃ out : StepOut, step e = some (out, nextEnv e)
      ∧ out.obs = row ∧ out.done = (nextEnv e).done := by
  have h3 : row[3]? = some (row.get ⟨3, by omega⟩) := by
    rw [List.getElem?_eq_getElem (by omega)]
    rw [List.get_eq_getElem]
  have h4 : row[4]? = some (row.get ⟨4, by omega⟩) := by
    rw [List.getElem?_eq_getElem (by omega)]
    rw [List.get_eq_getElem]
  have h5 : row[5]? = some (row.get ⟨5, by omega⟩) := by
    rw [List.getElem?_eq_getElem (by omega)]
    rw [List.get_eq_getElem]
  have h9 : row[9]? = some (row.get ⟨9, by omega⟩) := by
    rw [List.getElem?_eq_getElem (by omega)]
    rw [List.get_eq_getElem]
  refine ⟨⟨row,
    rewFun (e.i_limit : ℝ) (e.i_nominal : ℝ) e.max_episode_steps
      (((row.get ⟨3, by omega⟩ : ℚ) : ℝ), ((row.get ⟨4, by omega⟩ : ℚ) : ℝ),
        ((row.get ⟨5, by omega⟩ : ℚ) : ℝ))
      ((e.i_ref : ℝ), 0, 0) ((row.get ⟨9, by omega⟩ : ℚ) : ℝ),
    (nextEnv e).done, []⟩, ?_, rfl, rfl⟩
  simp [step, hrow, h3, h4, h5, h9, nextEnv]

lemma step_none (e : TestbenchEnv) (h : e.data.length ≤ e.current_step) :
    step e = none := by
  have hnone : e.data[e.current_step]? = none := List.getElem?_eq_none h
  simp [step, hnone]

lemma done_flag_step (dn : Bool) (ms k : ℕ) :
    (decide (k + 1 = ms) || (dn || decide (1 ≤ ms) && decide (ms ≤ k)))
      = (dn || decide (1 ≤ ms) && decide (ms ≤ k + 1)) := by
  by_cases h : k + 1 = ms
  · subst h
    have hA : decide (k + 1 = k + 1) = true := by simp
    have hB : decide (1 ≤ k + 1) = true := by simp
    have hC : decide (k + 1 ≤ k + 1) = true := by simp
    rw [hA, hB, hC]
    simp
  · have h2 : (ms ≤ k) ↔ (ms ≤ k + 1) := by omega
    simp [h, decide_eq_decide.mpr h2]

lemma runSteps_eq (e : TestbenchEnv) (hcur : e.current_step = 0)
    (hrows : ∀ r ∈ e.data, 10 ≤ r.length) :
    ∀ j, j ≤ e.data.length →
      runSteps e j = some { e with
        current_step := j
        done := e.done || decide (1 ≤ e.max_episode_steps ∧ e.max_episode_steps ≤ j) } := by
  intro j
  induction j with
  | zero =>
    intro _
    have hdec : decide (1 ≤ e.max_episode_steps ∧ e.max_episode_steps ≤ 0) = false := by
      simp only [decide_eq_false_iff_not]
      omega
    simp only [runSteps, hdec, Bool.or_false]
    congr 1
    cases e
    simp_all
  | succ k ih =>
    intro hk
    have hk' : k ≤ e.data.length := Nat.le_of_succ_le hk
    have hlt : k < e.data.length := hk
    rw [runSteps, ih hk']
    have hrowk : e.data[k]? = some e.data[k] := List.getElem?_eq_getElem hlt
    obtain ⟨out, hstep, _, _⟩ := step_some
      { e with
        current_step := k
        done := e.done || decide (1 ≤ e.max_episode_steps ∧ e.max_episode_steps ≤ k) }
      e.data[k] hrowk (hrows _ (List.getElem_mem hlt))
    rw [Option.some_bind, hstep, Option.map_some']
    congr 1
    cases e
    simp only [nextEnv]
    simp_all [done_flag_step]

lemma stepOutputAfter_spec (e : TestbenchEnv) (hcur : e.current_step = 0)
    (hrows : ∀ r ∈ e.data, 10 ≤ r.length) (k : ℕ) (hk : k < e.data.length) :
    ∃ out : StepOut, stepOutputAfter e k = some out ∧ out.obs = e.data[k]
      ∧ out.done = (e.done || (decide (1 ≤ e.max_episode_steps)
          && decide (e.max_episode_steps ≤ k + 1))) := by
  have hrun := runSteps_eq e hcur hrows k (le_of_lt hk)
  obtain ⟨out, hstep, hobs, hdone⟩ := step_some
    { e with
      current_step := k
      done := e.done || decide (1 ≤ e.max_episode_steps ∧ e.max_episode_steps ≤ k) }
    e.data[k] (List.getElem?_eq_getElem hk) (hrows _ (List.getElem_mem hk))
  refine ⟨out, ?_, hobs, ?_⟩
  · rw [stepOutputAfter, hrun, Option.some_bind, hstep, Option.map_some']
  · rw [hdone]
    simp only [nextEnv]
    simp [done_flag_step]

/-- C2. Stepper termination: from a freshly reset state (cursor `0`, done flag
`false`) with `max_episode_steps = N ≥ 1` and a telemetry buffer of exactly `N`
rows (one per requested step, as produced by the remote run), each of the first
`N` `step()` calls succeeds and returns `done = true` exactly on the `N`-th call,
and no `(N+1)`-st successful call is possible. -/
theorem stepper_termination (e : TestbenchEnv) (N : ℕ)
    (hN : 1 ≤ N) (hmax : e.max_episode_steps = N)
    (hcur : e.current_step = 0) (hdone : e.done = false)
    (hrows : ∀ r ∈ e.data, 10 ≤ r.length) (hlen : e.data.length = N) :
    (∀ k, k < N → ∃ out : StepOut, stepOutputAfter e k = some out
      ∧ out.done = decide (k + 1 = N))
    ∧ stepOutputAfter e N = none := by
  constructor
  · intro k hk
    obtain ⟨out, hso, _, hdn⟩ := stepOutputAfter_spec e hcur hrows k (by omega)
    refine ⟨out, hso, ?_⟩
    rw [hdn, hdone, hmax]
    have h1 : decide (1 ≤ N) = true := decide_eq_true hN
    rw [h1, Bool.false_or, Bool.true_and]
    apply decide_eq_decide.mpr
    omega
  · rw [stepOutputAfter, runSteps_eq e hcur hrows N (by omega), Option.some_bind]
    rw [step_none _ (by simp [hlen])]
    rfl

/-- Fixed well-formed telemetry row used by the concrete witness environments. -/
def rowW : List ℚ := [0, 0, 0, 1, 2, 3, 0, 0, 0, 0]

/-- A concrete freshly reset two-step environment with a two-row buffer. -/
def envW : TestbenchEnv :=
  { host := "h"
    username := "u"
    password := ""
    DT := 1/20000
    executable_script_name := "x"
    max_episode_steps := 2
    kP := 1/100
    kI := 5
    i_ref := 10
    f_nom := 50
    data := [rowW, rowW]
    current_step := 0
    done := false
    i_limit := 30
    i_nominal := 20 }

/-- C2 witness: the two-step environment with a two-row buffer admits exactly two
successful calls, the second of which reports done. -/
theorem stepper_termination_witness :
    (∃ out : StepOut, stepOutputAfter envW 0 = some out ∧ out.done = decide (0 + 1 = 2))
    ∧ (∃ out : StepOut, stepOutputAfter envW 1 = some out ∧ out.done = decide (1 + 1 = 2))
    ∧ stepOutputAfter envW 2 = none := by
  obtain ⟨h1, h2⟩ :=
    stepper_termination envW 2 (by norm_num) rfl rfl rfl (by decide) (by decide)
  exact ⟨h1 0 (by norm_num), h1 1 (by norm_num), h2⟩

/-- C7. Buffer bounds: from a freshly reset state, if the buffer holds fewer rows
than `max_episode_steps` then after the buffer-many successful calls the episode is
still not done and the next `step()` performs an out-of-range buffer read
(modelled by `none`); conversely, with at least `max_episode_steps` rows every one
of the first `max_episode_steps` calls reads an in-bounds row and succeeds. -/
theorem buffer_bounds (e : TestbenchEnv)
    (hcur : e.current_step = 0) (hdone : e.done = false)
    (hrows : ∀ r ∈ e.data, 10 ≤ r.length) :
    (e.data.length < e.max_episode_steps →
      ∃ e' : TestbenchEnv, runSteps e e.data.length = some e'
        ∧ e'.done = false ∧ step e' = none)
    ∧ (e.max_episode_steps ≤ e.data.length →
      ∀ k, k < e.max_episode_steps → (stepOutputAfter e k).isSome) := by
  constructor
  · intro hshort
    refine ⟨_, runSteps_eq e hcur hrows e.data.length le_rfl, ?_, ?_⟩
    · show (e.done || decide (1 ≤ e.max_episode_steps
        ∧ e.max_episode_steps ≤ e.data.length)) = false
      rw [hdone, Bool.false_or, decide_eq_false_iff_not]
      omega
    · apply step_none
      exact le_rfl
  · intro hlong k hk
    obtain ⟨out, hso, _, _⟩ := stepOutputAfter_spec e hcur hrows k (by omega)
    rw [hso]
    rfl

/-- A concrete freshly reset environment whose buffer (one row) is shorter than
its two configured steps. -/
def envShort : TestbenchEnv :=
  { envW with data := [rowW] }

/-- C7 witness: with one buffered row and two configured steps, one successful
call is followed by an out-of-range read while the done flag is still false;
with the two-row buffer of `envW` both calls read in bounds. -/
theorem buffer_bounds_witness :
    (∃ e' : TestbenchEnv, runSteps envShort envShort.data.length = some e'
      ∧ e'.done = false ∧ step e' = none)
    ∧ (stepOutputAfter envW 0).isSome ∧ (stepOutputAfter envW 1).isSome := by
  refine ⟨(buffer_bounds envShort rfl rfl (by decide)).1 (by decide), ?_, ?_⟩
  · exact (buffer_bounds envW rfl rfl (by decide)).2 (by decide) 0 (by decide)
  · exact (buffer_bounds envW rfl rfl (by decide)).2 (by decide) 1 (by decide)

/-- C9. Frame condition of `step()`: a successful call increments the cursor by
exactly one and (apart from the done flag) leaves every other field — telemetry
buffer, gains, and all configuration — unchanged. -/
theorem step_frame (e : TestbenchEnv) (out : StepOut) (e' : TestbenchEnv)
    (h : step e = some (out, e')) :
    e'.current_step = e.current_step + 1
    ∧ e'.data = e.data ∧ e'.kP = e.kP ∧ e'.kI = e.kI ∧ e'.i_ref = e.i_ref
    ∧ e'.i_limit = e.i_limit ∧ e'.i_nominal = e.i_nominal ∧ e'.f_nom = e.f_nom
    ∧ e'.max_episode_steps = e.max_episode_steps ∧ e'.DT = e.DT
    ∧ e'.host = e.host ∧ e'.username = e.username ∧ e'.password = e.password
    ∧ e'.executable_script_name = e.executable_script_name := by
  simp only [step, bind, Option.bind_eq_some] at h
  obtain ⟨row, hrow, h⟩ := h
  obtain ⟨a3, h3, h⟩ := h
  obtain ⟨a4, h4, h⟩ := h
  obtain ⟨a5, h5, h⟩ := h
  obtain ⟨a9, h9, h⟩ := h
  cases h
  exact ⟨rfl, rfl, rfl, rfl, rfl, rfl, rfl, rfl, rfl, rfl, rfl, rfl, rfl, rfl⟩

/-- C9 witness: the frame condition instantiated on the concrete two-step
environment. -/
theorem step_frame_witness :
    ∃ (out : StepOut) (e' : TestbenchEnv), step envW = some (out, e')
      ∧ e'.current_step = envW.current_step + 1 ∧ e'.data = envW.data
      ∧ e'.kP = envW.kP ∧ e'.max_episode_steps = envW.max_episode_steps := by
  have h : step envW = some
    (⟨rowW,
      rewFun (envW.i_limit : ℝ) (envW.i_nominal : ℝ) envW.max_episode_steps
        (((1:ℚ) : ℝ), ((2:ℚ) : ℝ), ((3:ℚ) : ℝ)) ((envW.i_ref : ℝ), 0, 0) (((0:ℚ)) : ℝ),
      false, []⟩,
      { envW with
        current_step := 1
        done := false }) := rfl
  obtain ⟨p1, p2, p3, -, -, -, -, -, p9, -, -, -, -, -⟩ := step_frame envW _ _ h
  exact ⟨_, _, h, p1, p2, p3, p9⟩

/-- C10. `reset(kP, kI)` assigns the gains before any remote interaction: when
the connection, remote execution or decoding raises (`remote = none`), the
returned state already carries the new gains while the telemetry buffer, cursor
and done flag keep their pre-call values; on success the buffer is replaced by
the decoded output and the cursor and done flag are cleared. A failed reset is
therefore not atomic on the environment state. -/
theorem reset_nonatomic (e : TestbenchEnv) (kP kI : ℚ) (f : List Char → ℚ) :
    ((reset e kP kI f none).1.kP = kP
      ∧ (reset e kP kI f none).1.kI = kI
      ∧ (reset e kP kI f none).1.data = e.data
      ∧ (reset e kP kI f none).1.current_step = e.current_step
      ∧ (reset e kP kI f none).1.done = e.done
      ∧ (reset e kP kI f none).2 = false)
    ∧ (∀ out : List (List Char),
      (reset e kP kI f (some out)).1.kP = kP
      ∧ (reset e kP kI f (some out)).1.kI = kI
      ∧ (reset e kP kI f (some out)).1.data = (decodeResult f out).rows
      ∧ (reset e kP kI f (some out)).1.current_step = 0
      ∧ (reset e kP kI f (some out)).1.done = false) :=
  ⟨⟨rfl, rfl, rfl, rfl, rfl, rfl⟩, fun _ => ⟨rfl, rfl, rfl, rfl, rfl⟩⟩

/-- C8. The decoder is deterministic and stateless: invoked from any two
environment states it neither reads nor writes them (the state passes through
unchanged and the table is independent of it), and re-decoding the same
telemetry text yields an identical table. -/
theorem decode_stateless (s₁ s₂ : TestbenchEnv) (f : List Char → ℚ)
    (lines : List (List Char)) :
    (decodeResultSt s₁ f lines).1 = s₁
    ∧ (decodeResultSt s₁ f lines).2 = (decodeResultSt s₂ f lines).2
    ∧ (decodeResultSt ((decodeResultSt s₁ f lines).1) f lines).2
      = (decodeResultSt s₁ f lines).2 :=
  ⟨rfl, rfl, rfl⟩

/-- Telemetry row of the spec's end-to-end scenario: measured phase currents
(columns 3–5) all `10` and phase angle (column 9) `0`. -/
def row5 : List ℚ := [0, 0, 0, 10, 10, 10, 0, 0, 0, 0]

/-- The spec's end-to-end scenario environment: three buffered rows, three
configured steps, setpoint `i_ref = 10`, default limits `30` / `20`. -/
def env5 : TestbenchEnv :=
  { host := "lea-jde10"
    username := "root"
    password := ""
    DT := 1/20000
    executable_script_name := "my_first_hps"
    max_episode_steps := 3
    kP := 1/100
    kI := 5
    i_ref := 10
    f_nom := 50
    data := [row5, row5, row5]
    current_step := 0
    done := false
    i_limit := 30
    i_nominal := 20 }

lemma cos_two_pi_div_three : Real.cos (2 * Real.pi / 3) = -(1/2) := by
  have h : 2 * Real.pi / 3 = Real.pi - Real.pi / 3 := by ring
  rw [h, Real.cos_pi_sub, Real.cos_pi_div_three]

lemma dq0_scenario : dq0_to_abc ((10:ℝ), 0, 0) 0 = (10, -5, -5) := by
  simp only [dq0_to_abc, Prod.mk.injEq]
  refine ⟨?_, ?_, ?_⟩
  · norm_num
  · rw [show (0:ℝ) - 2 * Real.pi / 3 = -(2 * Real.pi / 3) from by ring, Real.cos_neg,
      cos_two_pi_div_three]
    norm_num
  · rw [show (0:ℝ) + 2 * Real.pi / 3 = 2 * Real.pi / 3 from by ring, cos_two_pi_div_three]
    norm_num

lemma two_sqrt_half : 2 * Real.sqrt (1/2) = Real.sqrt 2 := by
  have h1 : (0:ℝ) ≤ 1/2 := by norm_num
  have h3 : (0:ℝ) ≤ 2 * Real.sqrt (1/2) := by positivity
  have key : (2 * Real.sqrt (1/2)) ^ 2 = 2 := by
    rw [mul_pow, Real.sq_sqrt h1]
    norm_num
  calc 2 * Real.sqrt (1/2) = Real.sqrt ((2 * Real.sqrt (1/2)) ^ 2) :=
        (Real.sqrt_sq h3).symm
    _ = Real.sqrt 2 := by rw [key]

lemma rew5_eq : rewFun 30 20 3 ((10:ℝ), 10, 10) (10, 0, 0) 0 = -Real.sqrt 2 := by
  have hm1 : |(((10:ℝ), (10:ℝ), (10:ℝ)) : ℝ × ℝ × ℝ).1| ≤ (20:ℝ) := by norm_num
  have hm2 : |(((10:ℝ), (10:ℝ), (10:ℝ)) : ℝ × ℝ × ℝ).2.1| ≤ (20:ℝ) := by norm_num
  have hm3 : |(((10:ℝ), (10:ℝ), (10:ℝ)) : ℝ × ℝ × ℝ).2.2| ≤ (20:ℝ) := by norm_num
  rw [rewFun_of_le_nominal hm1 hm2 hm3, dq0_scenario]
  unfold trackingTerm
  have e0 : |(10:ℝ) - 10| / 30 = 0 := by norm_num
  have e15 : |(-5:ℝ) - 10| = 15 := by
    rw [show (-5:ℝ) - 10 = -(15) from by norm_num, abs_neg, abs_of_nonneg (by norm_num)]
  have ehalf : |(-5:ℝ) - 10| / 30 = 1/2 := by rw [e15]; norm_num
  show -(Real.sqrt (|(10:ℝ) - 10| / 30) + Real.sqrt (|(-5:ℝ) - 10| / 30)
    + Real.sqrt (|(-5:ℝ) - 10| / 30)) = -Real.sqrt 2
  rw [e0, ehalf, Real.sqrt_zero, ← two_sqrt_half]
  ring

/-- The reward value produced by `step` on the scenario environment, with the
rational-to-real casts exactly as `step` performs them. -/
noncomputable def rew5val : ℝ :=
  rewFun ((30:ℚ):ℝ) ((20:ℚ):ℝ) 3 (((10:ℚ):ℝ), ((10:ℚ):ℝ), ((10:ℚ):ℝ))
    (((10:ℚ):ℝ), 0, 0) ((0:ℚ):ℝ)

lemma rew5val_eq : rew5val = -Real.sqrt 2 := by
  unfold rew5val
  have h30 : ((30:ℚ):ℝ) = 30 := by norm_num
  have h20 : ((20:ℚ):ℝ) = 20 := by norm_num
  have h10 : ((10:ℚ):ℝ) = 10 := by norm_num
  have h0 : ((0:ℚ):ℝ) = 0 := by norm_num
  rw [h30, h20, h10, h0]
  exact rew5_eq

lemma steps_env5 :
    stepOutputAfter env5 0 = some ⟨row5, rew5val, false, []⟩
    ∧ stepOutputAfter env5 1 = some ⟨row5, rew5val, false, []⟩
    ∧ stepOutputAfter env5 2 = some ⟨row5, rew5val, true, []⟩ :=
  ⟨rfl, rfl, rfl⟩

lemma rew5_lt : rew5val < -1 := by
  rw [rew5val_eq, neg_lt_neg_iff]
  exact (Real.lt_sqrt (by norm_num)).mpr (by norm_num)

/-- C5 counterexample: on the scenario buffer (three rows with measured phase
currents `10` and phase angle `0`, setpoint `(10,0,0)`, three steps), the first
`step()` returns reward exactly `-√2 ≈ -1.414 < -1`, not approximately `0`: at
phase angle `0` the abc setpoint is `(10,-5,-5)`, not `(10,10,10)`, so two
phases carry a tracking error of `15`. -/
theorem scenario_counterexample :
    (step env5).map (fun p => p.1.reward) = some (-Real.sqrt 2)
    ∧ -Real.sqrt 2 < -1 := by
  constructor
  · have h : (step env5).map (fun p => p.1.reward) = some rew5val := rfl
    rw [h, rew5val_eq]
  · rw [neg_lt_neg_iff]
    exact (Real.lt_sqrt (by norm_num)).mpr (by norm_num)

/-- C5 (amended). On the scenario buffer each of the three `step()` calls
returns reward exactly `-√2` (the tracking error of the measured `(10,10,10)`
against the phase-displaced abc setpoint `(10,-5,-5)`), and the done flags are
`false, false, true` in that order. -/
theorem scenario_amended :
    (stepOutputAfter env5 0).map (fun o => (o.reward, o.done))
      = some (-Real.sqrt 2, false)
    ∧ (stepOutputAfter env5 1).map (fun o => (o.reward, o.done))
      = some (-Real.sqrt 2, false)
    ∧ (stepOutputAfter env5 2).map (fun o => (o.reward, o.done))
      = some (-Real.sqrt 2, true) := by
  obtain ⟨s0, s1, s2⟩ := steps_env5
  refine ⟨?_, ?_, ?_⟩
  · rw [s0, Option.map_some', rew5val_eq]
  · rw [s1, Option.map_some', rew5val_eq]
  · rw [s2, Option.map_some', rew5val_eq]

end Testbench
